/- Verification of the agntor-cli scan orchestration, explanation engine and
   ticket lifecycle against its natural-language specification.

   The embedding follows the TypeScript sources: the scan command of the CLI
   entry file, the Copilot explanation engine (isCopilotAvailable, askCopilot,
   cleanOutput, renderMarkdown, fullSecurityAnalysis) and the ticket command
   branches.  External SDK detectors (guard, redact, validateUrl, settlement,
   ticket primitives) are modelled as oracle parameters, as the spec treats
   them as capability adapters. -/
import Mathlib

namespace Agntor

/-- Text is modelled as a list of characters (JS strings). -/
abbrev Str := List Char

/-- The escape character 0x1B that starts an ANSI escape sequence. -/
def esc : Char := '\x1b'

/-- The backquote character, delimiter of inline code spans. -/
def backquote : Char := Char.ofNat 96

/-- The star character, delimiter of bold and italic spans. -/
def star : Char := '*'

/-- JavaScript regex whitespace class: the characters matched by a backslash-s
    in a JS regular expression (also the set trimmed by String.trim). -/
def isJsWs (c : Char) : Bool :=
  c = ' ' || c = '\t' || c = '\n' || c = '\r' || c = '\x0b' || c = '\x0c' ||
  c = '\u00a0' || c = '\u1680' || (0x2000 ≤ c.toNat && c.toNat ≤ 0x200a) ||
  c = '\u2028' || c = '\u2029' || c = '\u202f' || c = '\u205f' ||
  c = '\u3000' || c = '\ufeff'

/-- Characters admitted into a URL body by the extraction regex of the scan command:
    everything except whitespace, double quote (34) and single quote (39). -/
def isUrlChar (c : Char) : Bool :=
  !(isJsWs c) && c.toNat ≠ 34 && c.toNat ≠ 39

/-- Greedy span: longest prefix satisfying the predicate, plus the remainder
    (the behaviour of a greedy character-class repetition in a JS regex). -/
def spanP (p : Char → Bool) : Str → Str × Str
  | [] => ([], [])
  | c :: rest =>
    if p c then
      let s := spanP p rest
      (c :: s.1, s.2)
    else ([], c :: rest)

/-- Whether the first list is an initial segment of the second
    (used to model JS String.startsWith / indexOf matching). -/
def leadsWith : Str → Str → Bool
  | [], _ => true
  | _ :: _, [] => false
  | a :: as, b :: bs => a = b && leadsWith as bs

/-- Index of the first occurrence of the needle in the haystack
    (JS String.indexOf, as a partial result). -/
def findMark (needle : Str) : Str → Option Nat
  | [] => if leadsWith needle [] then some 0 else none
  | c :: rest =>
    if leadsWith needle (c :: rest) then some 0
    else (findMark needle rest).map (fun i => i + 1)

/-- The usage-statistics marker "newline Total usage est:" of cleanOutput. -/
def marker1 : Str := "\nTotal usage est:".data

/-- The usage-statistics marker "newline API time spent:" of cleanOutput. -/
def marker2 : Str := "\nAPI time spent:".data

/-- Truncation of subprocess output at the earliest usage-statistics marker,
    as in cleanOutput: earliest of both marker positions, else unchanged. -/
def truncAtMarkers (l : Str) : Str :=
  let e1 := (findMark marker1 l).getD l.length
  let e2 := (findMark marker2 l).getD l.length
  l.take (min e1 e2)

/-- JS String.trim: whitespace removed from both ends. -/
def trimWs (l : Str) : Str :=
  ((l.dropWhile isJsWs).reverse.dropWhile isJsWs).reverse

/-- Removal of carriage returns (the replace of backslash-r by nothing). -/
def removeCR (l : Str) : Str := l.filter (fun c => c ≠ '\r')

/-- Parameter characters of an ANSI CSI sequence: digits and semicolon,
    the character class between the bracket and the final letter. -/
def isParamChar (c : Char) : Bool := c.isDigit || c = ';'

/-- Attempts to recognise the tail of an ANSI escape sequence right after the
    escape byte: a bracket, parameter characters, then a letter.  Returns the
    remainder after the sequence on success (the regex of cleanOutput). -/
def tryCsi : Str → Option Str
  | [] => none
  | c :: rest =>
    if c = '[' then
      match spanP isParamChar rest with
      | (_, a :: rest') => if a.isAlpha then some rest' else none
      | (_, []) => none
    else none

/-- Fuel-indexed scanner stripping ANSI escape sequences, one position per
    unit of fuel; with fuel at least the length of the input it implements
    the global regex replacement of cleanOutput. -/
def stripAnsiGo : Nat → Str → Str
  | _, [] => []
  | 0, l => l
  | fuel + 1, c :: rest =>
    if c = esc then
      match tryCsi rest with
      | some rest' => stripAnsiGo fuel rest'
      | none => c :: stripAnsiGo fuel rest
    else c :: stripAnsiGo fuel rest

/-- Stripping of ANSI escape sequences from subprocess output. -/
def stripAnsi (l : Str) : Str := stripAnsiGo l.length l

/-- cleanOutput from copilot.ts: strip ANSI escape sequences, remove carriage
    returns, truncate at the earliest usage-statistics marker, then trim. -/
def cleanOutput (output : Str) : Str :=
  trimWs (truncAtMarkers (removeCR (stripAnsi output)))

/-- SGR sequence: escape, bracket, code characters, final letter m
    (the sequences chalk emits around styled text). -/
def sgr (code : Str) : Str := esc :: '[' :: code ++ ['m']

/-- chalk.bold: bold open and close codes around the text. -/
def chalkBold (s : Str) : Str := sgr ['1'] ++ s ++ sgr ['2', '2']

/-- chalk.dim: dim open and close codes around the text. -/
def chalkDim (s : Str) : Str := sgr ['2'] ++ s ++ sgr ['2', '2']

/-- chalk.cyan: cyan open and close codes around the text. -/
def chalkCyan (s : Str) : Str := sgr ['3', '6'] ++ s ++ sgr ['3', '9']

/-- chalk.bold.white: nested bold and white codes around the text. -/
def chalkBoldWhite (s : Str) : Str :=
  sgr ['1'] ++ sgr ['3', '7'] ++ s ++ sgr ['3', '9'] ++ sgr ['2', '2']

/-- Number of leading hash characters of a line. -/
def leadHashes : Str → Nat
  | '#' :: rest => leadHashes rest + 1
  | _ => 0

/-- Whether a line matches the heading test of renderMarkdown: one to three
    leading hashes followed by a whitespace character. -/
def isHeadingLine (line : Str) : Bool :=
  let n := leadHashes line
  if 1 ≤ n ∧ n ≤ 3 then
    match line.drop n with
    | c :: _ => isJsWs c
    | [] => false
  else false

/-- The heading replacement of renderMarkdown: leading hashes and the
    whitespace run after them removed. -/
def stripHeading (line : Str) : Str :=
  (line.drop (leadHashes line)).dropWhile isJsWs

/-- Fuel-indexed scanner for the global bold-span replacement of
    renderMarkdown: double star, one or more non-star characters, double
    star, replaced by chalk.bold of the body; scanning resumes after each
    match, and advances one character after a failed attempt. -/
def replaceBoldGo : Nat → Str → Str
  | _, [] => []
  | 0, l => l
  | fuel + 1, c :: rest =>
    if c = star then
      match rest with
      | c2 :: rest2 =>
        if c2 = star then
          let s := spanP (fun x => x ≠ star) rest2
          if s.1.isEmpty then c :: replaceBoldGo fuel rest
          else
            match s.2 with
            | a :: b :: after =>
              if a = star ∧ b = star then chalkBold s.1 ++ replaceBoldGo fuel after
              else c :: replaceBoldGo fuel rest
            | _ => c :: replaceBoldGo fuel rest
        else c :: replaceBoldGo fuel rest
      | [] => [c]
    else c :: replaceBoldGo fuel rest

/-- The bold-span replacement of renderMarkdown. -/
def replaceBold (l : Str) : Str := replaceBoldGo l.length l

/-- Fuel-indexed scanner for the global code-span replacement of
    renderMarkdown: backquote, one or more non-backquote characters,
    backquote, replaced by chalk.cyan of the body. -/
def replaceCodeGo : Nat → Str → Str
  | _, [] => []
  | 0, l => l
  | fuel + 1, c :: rest =>
    if c = backquote then
      let s := spanP (fun x => x ≠ backquote) rest
      match s.2 with
      | _ :: after =>
        if s.1.isEmpty then c :: replaceCodeGo fuel rest
        else chalkCyan s.1 ++ replaceCodeGo fuel after
      | [] => c :: replaceCodeGo fuel rest
    else c :: replaceCodeGo fuel rest

/-- The code-span replacement of renderMarkdown. -/
def replaceCode (l : Str) : Str := replaceCodeGo l.length l

/-- Fuel-indexed scanner for the global italic-span replacement of
    renderMarkdown: a star not preceded by a star (tracked by the first
    argument), one or more non-star characters, a star not followed by a
    star, replaced by chalk.dim of the body. -/
def replaceItalicGo : Bool → Nat → Str → Str
  | _, _, [] => []
  | _, 0, l => l
  | prevStar, fuel + 1, c :: rest =>
    if c = star then
      if prevStar then c :: replaceItalicGo true fuel rest
      else
        let s := spanP (fun x => x ≠ star) rest
        match s.2 with
        | _ :: after =>
          if s.1.isEmpty then c :: replaceItalicGo true fuel rest
          else
            match after with
            | a2 :: _ =>
              if a2 = star then c :: replaceItalicGo true fuel rest
              else chalkDim s.1 ++ replaceItalicGo true fuel after
            | [] => chalkDim s.1 ++ replaceItalicGo true fuel after
        | [] => c :: replaceItalicGo true fuel rest
    else c :: replaceItalicGo false fuel rest

/-- The italic-span replacement of renderMarkdown (no previous character at
    the start of the line). -/
def replaceItalic (l : Str) : Str := replaceItalicGo false l.length l

/-- One line of renderMarkdown: heading lines become emphasized text with
    the markers removed; otherwise the bold, code and italic replacements
    are applied in that order. -/
def renderLine (line : Str) : Str :=
  if isHeadingLine line then chalkBoldWhite (stripHeading line)
  else replaceItalic (replaceCode (replaceBold line))

/-- JS String.split on newline. -/
def splitNl : Str → List Str
  | [] => [[]]
  | c :: rest =>
    if c = '\n' then [] :: splitNl rest
    else
      match splitNl rest with
      | l :: ls => (c :: l) :: ls
      | [] => [[c]]

/-- JS Array.join on newline. -/
def joinNl : List Str → Str
  | [] => []
  | [l] => l
  | l :: ls => l ++ '\n' :: joinNl ls

/-- renderMarkdown from copilot.ts: split into lines, transform each line,
    join the lines back. -/
def renderMarkdown (text : Str) : Str :=
  joinNl ((splitNl text).map renderLine)

/-- The pass/block outcome of a single security check (spec data model;
    the sources compare the string of the adapter against the block literal). -/
inductive Classification
  | pass
  | block
deriving DecidableEq

/-- The string form of a classification, as interpolated into prompts. -/
def Classification.text : Classification → Str
  | .pass => "pass".data
  | .block => "block".data

/-- Result record of the external guard adapter (classification plus
    violation type labels), as consumed by the scan command. -/
structure GuardResult where
  classification : Classification
  violation_types : List Str
deriving DecidableEq

/-- One finding of the external redact adapter: a type label and a span. -/
structure RedactFinding where
  type : Str
  span : Nat × Nat
deriving DecidableEq

/-- Result record of the external redact adapter. -/
structure RedactResult where
  redacted : Str
  findings : List RedactFinding
deriving DecidableEq

/-- Per-URL outcome recorded by the SSRF loop of the scan command: the URL, the
    safe flag, and the SsrfError reason when validation threw. -/
structure SsrfOutcome where
  url : Str
  safe : Bool
  reason : Option Str
deriving DecidableEq

/-- The try/catch body of the SSRF loop of the scan command for one URL: the
    validateUrl adapter is modelled as an oracle returning none on success
    and the message of the thrown SsrfError on failure. -/
def ssrfCheckOne (validateUrlO : Str → Option Str) (u : Str) : SsrfOutcome :=
  match validateUrlO u with
  | none => { url := u, safe := true, reason := none }
  | some e => { url := u, safe := false, reason := some e }

/-- The SSRF loop of the scan command: each extracted URL is validated inside its
    own try/catch and its outcome pushed in order; a failure never aborts
    the remaining iterations. -/
def ssrfScanLoop (validateUrlO : Str → Option Str) : List Str → List SsrfOutcome
  | [] => []
  | u :: rest => ssrfCheckOne validateUrlO u :: ssrfScanLoop validateUrlO rest

/-- Attempts to match the scheme part of the URL-extraction regex at the
    current position: the https form first (the greedy optional s), then the
    http form; returns the scheme characters and the remainder. -/
def tryScheme (l : Str) : Option (Str × Str) :=
  if leadsWith ("https://".data) l then some ("https://".data, l.drop 8)
  else if leadsWith ("http://".data) l then some ("http://".data, l.drop 7)
  else none

/-- Fuel-indexed scanner for the URL-extraction regex of the scan command:
    at each position, a scheme followed by one or more URL characters is a
    match (maximal body); otherwise scanning advances one character.
    Matches do not overlap: scanning resumes after each match. -/
def extractUrlsGo : Nat → Str → List Str
  | _, [] => []
  | 0, _ => []
  | fuel + 1, c :: rest =>
    match tryScheme (c :: rest) with
    | some (scheme, afterScheme) =>
      let s := spanP isUrlChar afterScheme
      if s.1.isEmpty then extractUrlsGo fuel rest
      else (scheme ++ s.1) :: extractUrlsGo fuel s.2
    | none => extractUrlsGo fuel rest

/-- URL extraction of the scan command: all matches of the http/https
    pattern, in order of occurrence in the input text. -/
def extractUrls (l : Str) : List Str := extractUrlsGo l.length l

/-- askCopilot from copilot.ts over a subprocess oracle: the oracle returns
    the standard output of the gh copilot invocation, or none when the
    invocation fails (timeout, non-zero exit, output-size cap exceeded);
    any failure is absorbed into an empty string by the catch. -/
def askCopilot (sub : Str → Option Str) (prompt : Str) : Str :=
  match sub prompt with
  | some stdout => cleanOutput stdout
  | none => []

/-- One subprocess invocation over an explicit trace of pending subprocess
    behaviours: consumes exactly the first entry (none models a failing
    invocation), leaving the rest untouched. -/
def execCopilotOnce : List (Option Str) → Option Str × List (Option Str)
  | [] => (none, [])
  | o :: rest => (o, rest)

/-- askCopilot instrumented over a subprocess trace, to make the number of
    subprocess invocations per call observable: the remainder of the trace
    shows how many entries one call consumed. -/
def askCopilotTraced (trace : List (Option Str)) (_prompt : Str) :
    Str × List (Option Str) :=
  let r := execCopilotOnce trace
  match r.1 with
  | some stdout => (cleanOutput stdout, r.2)
  | none => ([], r.2)

/-- Decimal string of a number, as interpolated into prompts. -/
def natToStr (n : Nat) : Str := (toString n).data

/-- JS Array.join with a comma separator. -/
def joinComma (xs : List Str) : Str := List.intercalate (", ".data) xs

/-- JS Array.join with a semicolon separator. -/
def joinSemi (xs : List Str) : Str := List.intercalate ("; ".data) xs

/-- The or-else-none idiom of the prompt templates: an empty joined list is
    shown as the word none. -/
def orNoneStr (s : Str) : Str := if s.isEmpty then "none".data else s

/-- The simplified per-URL records handed to fullSecurityAnalysis by the
    scan command. -/
structure UrlSafety where
  url : Str
  safe : Bool
deriving DecidableEq

/-- The per-URL fragment of the fullSecurityAnalysis prompt. -/
def urlOutcomeText (r : UrlSafety) : Str :=
  r.url ++ (" → ".data) ++ (if r.safe then "safe".data else "BLOCKED".data)

/-- The prompt template of fullSecurityAnalysis from copilot.ts. -/
def fullSecurityAnalysisPrompt (input : Str) (gc : Classification)
    (gviol : List Str) (rcount : Nat) (rtypes : List Str)
    (ssrfResults : List UrlSafety) : Str :=
  ("I ran a full security scan on AI agent input: \"".data) ++ input.take 300 ++
  ("\".\nResults:\n- Prompt injection: ".data) ++ gc.text ++
  (" (violations: ".data) ++ orNoneStr (joinComma gviol) ++
  (")\n- Secrets found: ".data) ++ natToStr rcount ++
  (" (types: ".data) ++ orNoneStr (joinComma rtypes) ++
  (")\n- URLs checked: ".data) ++
  orNoneStr (joinSemi (ssrfResults.map urlOutcomeText)) ++
  ("\n\nProvide a brief overall threat assessment: What\x27s the risk level (Low/Medium/High/Critical)? What\x27s the most dangerous finding? What should the agent operator do? Be concise — 3-4 sentences max.".data)

/-- fullSecurityAnalysis from copilot.ts: template the prompt, ask the
    subprocess, render the response as markdown when it is non-empty. -/
def fullSecurityAnalysis (sub : Str → Option Str) (input : Str)
    (gc : Classification) (gviol : List Str) (rcount : Nat)
    (rtypes : List Str) (_urls : List Str) (ssrfResults : List UrlSafety) : Str :=
  let response := askCopilot sub
    (fullSecurityAnalysisPrompt input gc gviol rcount rtypes ssrfResults)
  if response.isEmpty then [] else renderMarkdown response

/-- First-occurrence deduplication, the JS spread of a Set over the finding
    types in the scan command. -/
def dedupFirstAux (seen : List Str) : List Str → List Str
  | [] => []
  | x :: rest =>
    if x ∈ seen then dedupFirstAux seen rest
    else x :: dedupFirstAux (x :: seen) rest

/-- The deduplicated list of redaction finding types, first occurrences in
    order. -/
def dedupFirst (l : List Str) : List Str := dedupFirstAux [] l

/-- Everything the scan command computes for one invocation: the three
    detector results, the per-URL outcomes, and (when the explanation engine
    is available) the simplified per-URL argument handed to
    fullSecurityAnalysis together with its returned text. -/
structure ScanReport where
  guardResult : GuardResult
  redactResult : RedactResult
  urls : List Str
  ssrfResults : List SsrfOutcome
  analysisSsrfArg : Option (List UrlSafety)
  analysis : Option Str
deriving DecidableEq

/-- The scan command action: run the guard and redact adapters, extract and
    validate the URLs, then, only when the explanation engine probe
    succeeded, call fullSecurityAnalysis with the simplified all-safe
    per-URL records the source constructs inline. -/
def scanCommand (copilotAvailable : Bool) (sub : Str → Option Str)
    (guardA : Str → GuardResult) (redactA : Str → RedactResult)
    (validateUrlO : Str → Option Str) (input : Str) : ScanReport :=
  let guardResult := guardA input
  let redactResult := redactA input
  let urlMatches := extractUrls input
  let ssrfResults := ssrfScanLoop validateUrlO urlMatches
  let simplified := urlMatches.map (fun u => UrlSafety.mk u true)
  { guardResult := guardResult
    redactResult := redactResult
    urls := urlMatches
    ssrfResults := ssrfResults
    analysisSsrfArg := if copilotAvailable then some simplified else none
    analysis :=
      if copilotAvailable then
        some (fullSecurityAnalysis sub input guardResult.classification
          guardResult.violation_types redactResult.findings.length
          (dedupFirst (redactResult.findings.map (fun f => f.type)))
          urlMatches simplified)
      else none }

/-- Kind of a finding in the data model of the spec. -/
inductive FindingKind
  | injection
  | secret
  | ssrf
deriving DecidableEq

/-- Modelled from the spec: a Finding of the ThreatReport data model (the
    scan command prints per-step results and never assembles an explicit
    report value, so the Finding record follows the data model of the spec). -/
structure Finding where
  kind : FindingKind
  labels : List Str
  classification : Classification
deriving DecidableEq

/-- Modelled from the spec: the informational (never block-classified)
    Finding contributed by one redaction finding. -/
def secretFindingOf (f : RedactFinding) : Finding :=
  { kind := FindingKind.secret, labels := [f.type],
    classification := Classification.pass }

/-- Modelled from the spec: the block-classified Finding contributed by a
    URL whose validation threw, none for a safe URL. -/
def ssrfFindingOf (o : SsrfOutcome) : Option Finding :=
  if o.safe then none
  else some { kind := FindingKind.ssrf, labels := [o.url],
              classification := Classification.block }

/-- Modelled from the spec: the constituent Findings of the ThreatReport of
    one scan invocation, read off the per-step results the source prints: a
    block-classified injection finding when the guard blocks, one
    informational secret finding per redaction finding, and a
    block-classified ssrf finding per URL whose validation failed. -/
def reportFindings (r : ScanReport) : List Finding :=
  (if r.guardResult.classification = Classification.block then
    [{ kind := FindingKind.injection, labels := r.guardResult.violation_types,
       classification := Classification.block }]
   else []) ++
  r.redactResult.findings.map secretFindingOf ++
  r.ssrfResults.filterMap ssrfFindingOf

/-- Modelled from the spec: the derived overall Classification of the
    ThreatReport — block exactly when some constituent Finding is
    block-classified. -/
def overallOf (r : ScanReport) : Classification :=
  if (reportFindings r).any
      (fun f => f.classification == Classification.block) then
    Classification.block
  else Classification.pass

/-- Outcome record of validateTicketSync of the external ticket issuer. -/
structure TicketValidationOutcome where
  valid : Bool
  errorCode : Option Str
deriving DecidableEq

/-- What the validate branch of the ticket command computes and shows: the
    authoritative validation outcome, plus the best-effort decode that is
    always attempted for display (its result is what printTicketResult
    receives, an empty object standing in when decoding failed), plus
    whether the explanation engine was asked about the decoded claims. -/
structure ValidateDisplay (α : Type) where
  decoded : Option α
  shownPayload : Option α
  valid : Bool
  errorCode : Option Str
  explained : Bool
deriving DecidableEq

/-- The validate branch of the ticket command action: validateTicketSync
    and decodeTicket are both invoked on the token, and the decoded claims
    are displayed with the validation outcome regardless of validity. -/
def ticketValidateBranch {α : Type}
    (validateTicketSyncO : Str → TicketValidationOutcome)
    (decodeTicketO : Str → Option α)
    (copilotAvailable : Bool) (token : Str) : ValidateDisplay α :=
  let result := validateTicketSyncO token
  let decoded := decodeTicketO token
  { decoded := decoded
    shownPayload := decoded
    valid := result.valid
    errorCode := result.errorCode
    explained := copilotAvailable && decoded.isSome }

/-- The constraint set the generate branch of the ticket command passes to
    generateTicket, as a function of the requested audit level string. -/
structure TicketConstraints where
  max_op_value : Nat
  allowed_mcp_servers : List Str
  kill_switch_active : Bool
  max_ops_per_hour : Nat
  requires_x402_payment : Bool
deriving DecidableEq

/-- The constraints literal of the generate branch: the max operation value
    ladder over the audit level, the fixed server allow-list, the inactive
    kill switch, the fixed rate limit, and payment required except for
    Bronze. -/
def generateConstraints (level : Str) : TicketConstraints :=
  { max_op_value :=
      if level = "Platinum".data then 10000
      else if level = "Gold".data then 5000
      else if level = "Silver".data then 1000
      else 100
    allowed_mcp_servers := ["tools.agntor.com".data, "api.example.com".data]
    kill_switch_active := false
    max_ops_per_hour := 100
    requires_x402_payment := level != "Bronze".data }

/-- The request the generate branch makes to the external ticket issuer. -/
structure TicketRequest where
  agentId : Str
  auditLevel : Str
  constraints : TicketConstraints
deriving DecidableEq

/-- The generateTicket argument built by the generate branch from the agent
    and level options. -/
def generateBranchRequest (agent level : Str) : TicketRequest :=
  { agentId := agent, auditLevel := level,
    constraints := generateConstraints level }

/-- The top-level failure handling of the CLI: a command invocation that
    runs to completion exits with status zero and reports no error; an
    error escaping a command is caught by the unhandledRejection handler,
    which prints one message prefixed with Unexpected error and exits with
    status one.  The result pairs the reported error messages with the
    process exit code. -/
def topLevelRun {α : Type} (run : Except Str α) : List Str × Nat :=
  match run with
  | Except.ok _ => ([], 0)
  | Except.error e => ([("Unexpected error: ".data) ++ e], 1)


/- ───────────────────────── theorems ───────────────────────── -/

theorem spanP_snd_length_le (p : Char → Bool) :
    ∀ l : Str, (spanP p l).2.length ≤ l.length := by
  intro l
  induction l with
  | nil => simp [spanP]
  | cons c rest ih =>
    by_cases h : p c = true
    · simp only [spanP, h, if_true]
      exact Nat.le_succ_of_le ih
    · simp [spanP, h]

theorem spanP_app (p : Char → Bool) (xs : Str) (y : Char) (rest : Str)
    (hxs : ∀ c ∈ xs, p c = true) (hy : p y = false) :
    spanP p (xs ++ y :: rest) = (xs, y :: rest) := by
  induction xs with
  | nil => simp [spanP, hy]
  | cons c cs ih =>
    have hc : p c = true := hxs c (List.mem_cons_self c cs)
    have ihh := ih (fun d hd => hxs d (List.mem_cons_of_mem c hd))
    simp [spanP, hc, ihh]

theorem leadsWith_append (n r : Str) : leadsWith n (n ++ r) = true := by
  induction n with
  | nil => simp [leadsWith]
  | cons a as ih => simp [leadsWith, ih]

theorem leadsWith_cons_ne (n0 : Char) (nt : Str) (c : Char) (l : Str)
    (h : c ≠ n0) : leadsWith (n0 :: nt) (c :: l) = false := by
  simp [leadsWith, Ne.symm h]

theorem ssrfScanLoop_eq_map (v : Str → Option Str) :
    ∀ l : List Str, ssrfScanLoop v l = l.map (ssrfCheckOne v) := by
  intro l
  induction l with
  | nil => rfl
  | cons u rest ih => simp [ssrfScanLoop, ih]

theorem ssrfCheckOne_url (v : Str → Option Str) (u : Str) :
    (ssrfCheckOne v u).url = u := by
  cases h : v u <;> simp [ssrfCheckOne, h]

theorem map_eq_self {β : Type} (f : β → β) :
    ∀ l : List β, (∀ a ∈ l, f a = a) → l.map f = l := by
  intro l
  induction l with
  | nil => intro _; rfl
  | cons a rest ih =>
    intro h
    simp only [List.map_cons, h a (List.mem_cons_self a rest)]
    rw [ih (fun b hb => h b (List.mem_cons_of_mem a hb))]

/-- C2: in the full scan, an SsrfError on one extracted URL aborts neither
    the validation of the remaining URLs nor the report: every extracted
    URL gets its own independently recorded outcome, and the sequence of
    per-URL outcomes follows the extraction order from the input text, for
    every validateUrl behaviour including failures on earlier URLs. -/
theorem scan_ssrf_fault_tolerant_order (v : Str → Option Str) (input : Str) :
    ssrfScanLoop v (extractUrls input) =
      (extractUrls input).map (ssrfCheckOne v) ∧
    (ssrfScanLoop v (extractUrls input)).map (fun o => o.url) =
      extractUrls input ∧
    (∀ (av : Bool) sub gA rA,
      (scanCommand av sub gA rA v input).ssrfResults =
        (extractUrls input).map (ssrfCheckOne v)) := by
  refine ⟨ssrfScanLoop_eq_map v (extractUrls input), ?_, ?_⟩
  · rw [ssrfScanLoop_eq_map v (extractUrls input), List.map_map]
    exact map_eq_self _ _ (fun u _ => ssrfCheckOne_url v u)
  · intro av sub gA rA
    simp [scanCommand, ssrfScanLoop_eq_map]

theorem all_map_safe (urls : List Str) :
    ((urls.map (fun u => UrlSafety.mk u true)).all (fun r => r.safe)) = true := by
  induction urls with
  | nil => rfl
  | cons u rest ih => simp [ih]

/-- C9: in every full scan with the explanation engine available, the
    per-URL results handed to the combined fullSecurityAnalysis call mark
    every extracted URL as safe, whatever the validateUrl oracle actually
    answered for the recorded SSRF outcomes; the combined assessment never
    sees a blocked-URL outcome. -/
theorem scan_analysis_urls_marked_safe (sub : Str → Option Str)
    (gA : Str → GuardResult) (rA : Str → RedactResult)
    (v : Str → Option Str) (input : Str) :
    (scanCommand true sub gA rA v input).analysisSsrfArg =
      some ((extractUrls input).map (fun u => UrlSafety.mk u true)) ∧
    (∀ l, (scanCommand true sub gA rA v input).analysisSsrfArg = some l →
      l.all (fun r => r.safe) = true) := by
  constructor
  · rfl
  · intro l h
    have h0 : (scanCommand true sub gA rA v input).analysisSsrfArg =
        some ((extractUrls input).map (fun u => UrlSafety.mk u true)) := rfl
    rw [h0] at h
    injection h with h
    rw [← h]
    exact all_map_safe (extractUrls input)

theorem scan_analysis_urls_marked_safe_witness :
    (((extractUrls ("fetch http://169.254.169.254/meta now".data)).map
      (fun u => UrlSafety.mk u true)).all (fun r => r.safe)) = true := by
  have h := scan_analysis_urls_marked_safe (fun _ => none)
    (fun _ => GuardResult.mk Classification.pass [])
    (fun _ => RedactResult.mk [] [])
    (fun _ => some ("Blocked: link-local address".data))
    ("fetch http://169.254.169.254/meta now".data)
  exact h.2 _ h.1

/-- C3: the primary scan results are the same whether the explanation
    engine is available or not — two runs differing only in the probe
    outcome and in the subprocess behaviour agree on the guard result, the
    redaction result, the extracted URLs, every per-URL outcome, the
    overall classification and every Finding — and an enrichment call whose
    subprocess invocation fails yields the empty explanation string. -/
theorem scan_explanation_non_interference (gA : Str → GuardResult)
    (rA : Str → RedactResult) (v : Str → Option Str) (input : Str)
    (sub1 sub2 : Str → Option Str) :
    (scanCommand true sub1 gA rA v input).guardResult =
      (scanCommand false sub2 gA rA v input).guardResult ∧
    (scanCommand true sub1 gA rA v input).redactResult =
      (scanCommand false sub2 gA rA v input).redactResult ∧
    (scanCommand true sub1 gA rA v input).urls =
      (scanCommand false sub2 gA rA v input).urls ∧
    (scanCommand true sub1 gA rA v input).ssrfResults =
      (scanCommand false sub2 gA rA v input).ssrfResults ∧
    overallOf (scanCommand true sub1 gA rA v input) =
      overallOf (scanCommand false sub2 gA rA v input) ∧
    reportFindings (scanCommand true sub1 gA rA v input) =
      reportFindings (scanCommand false sub2 gA rA v input) ∧
    (∀ prompt, askCopilot (fun _ => none) prompt = []) ∧
    (∀ input2 gc gviol rcount rtypes urls2 ssrf2,
      fullSecurityAnalysis (fun _ => none) input2 gc gviol rcount rtypes
        urls2 ssrf2 = []) := by
  refine ⟨rfl, rfl, rfl, rfl, rfl, rfl, fun _ => rfl, fun _ _ _ _ _ _ _ => rfl⟩

/-- C4: any failure of the explanation subprocess invocation (timeout,
    non-zero exit, output cap — all the cases the oracle models as none)
    makes askCopilot return the empty string, and one askCopilot call
    consumes exactly one entry of the subprocess trace: the subprocess is
    never retried. -/
theorem askCopilot_failure_absorbed_no_retry (trace : List (Option Str))
    (prompt : Str) :
    (askCopilotTraced trace prompt).2 = trace.drop 1 ∧
    (∀ rest, trace = none :: rest → (askCopilotTraced trace prompt).1 = []) ∧
    (∀ out rest, trace = some out :: rest →
      (askCopilotTraced trace prompt).1 = cleanOutput out) := by
  refine ⟨?_, ?_, ?_⟩
  · cases trace with
    | nil => rfl
    | cons o rest => cases o <;> rfl
  · intro rest h
    subst h
    rfl
  · intro out rest h
    subst h
    rfl

theorem askCopilot_failure_absorbed_no_retry_witness :
    (askCopilotTraced [none] []).1 = [] ∧
    (askCopilotTraced [none] []).2 = [] :=
  ⟨(askCopilot_failure_absorbed_no_retry [none] []).2.1 [] rfl,
   (askCopilot_failure_absorbed_no_retry [none] []).1⟩

/-- C5: the validate branch of the ticket command always performs the decode as
    well, even when validation reports the token invalid, so the
    structurally recoverable claims are still displayed to the operator. -/
theorem ticket_validate_always_decodes {α : Type}
    (validateTicketSyncO : Str → TicketValidationOutcome)
    (decodeTicketO : Str → Option α) (av : Bool) (token : Str)
    (hinv : (validateTicketSyncO token).valid = false) :
    (ticketValidateBranch validateTicketSyncO decodeTicketO av token).decoded =
      decodeTicketO token ∧
    (ticketValidateBranch validateTicketSyncO decodeTicketO av
      token).shownPayload = decodeTicketO token ∧
    (ticketValidateBranch validateTicketSyncO decodeTicketO av token).valid =
      false :=
  ⟨rfl, rfl, by simp [ticketValidateBranch, hinv]⟩

theorem ticket_validate_always_decodes_witness :
    (ticketValidateBranch (fun _ => TicketValidationOutcome.mk false
        (some ("ERR_SIGNATURE".data)))
      (fun _ => some (37 : Nat)) true ("header.payload.sig".data)).decoded =
      some 37 :=
  (ticket_validate_always_decodes
    (fun _ => TicketValidationOutcome.mk false (some ("ERR_SIGNATURE".data)))
    (fun _ => some (37 : Nat)) true ("header.payload.sig".data) rfl).1

/-- C6: a completed scan exits with code zero whether the outcome is block
    or pass; an error not otherwise handled is caught by the single
    top-level handler, reported exactly once with its message, and makes
    the process exit non-zero; that handler is the only abnormal
    termination path and it never stays silent. -/
theorem top_level_exit_codes :
    (∀ r : ScanReport, topLevelRun (Except.ok r) = ([], 0)) ∧
    (∀ (av : Bool) sub gA rA v input,
      topLevelRun (Except.ok (scanCommand av sub gA rA v input)) = ([], 0)) ∧
    (∀ e : Str, topLevelRun (Except.error e : Except Str ScanReport) =
      ([("Unexpected error: ".data) ++ e], 1)) ∧
    (∀ run : Except Str ScanReport, (topLevelRun run).2 ≠ 0 →
      ∃ e, run = Except.error e ∧
        (topLevelRun run).1 = [("Unexpected error: ".data) ++ e] ∧
        (topLevelRun run).1.length = 1) ∧
    (∀ run : Except Str ScanReport, (topLevelRun run).2 ≠ 0 →
      (topLevelRun run).1 ≠ []) := by
  refine ⟨fun r => rfl, fun _ _ _ _ _ _ => rfl, fun e => rfl, ?_, ?_⟩
  · intro run h
    cases run with
    | ok r => simp [topLevelRun] at h
    | error e => exact ⟨e, rfl, rfl, rfl⟩
  · intro run h
    cases run with
    | ok r => simp [topLevelRun] at h
    | error e => simp [topLevelRun]

theorem top_level_exit_codes_witness :
    topLevelRun (Except.ok (ScanReport.mk
      (GuardResult.mk Classification.block [("instruction_override".data)])
      (RedactResult.mk [] []) [] [] none none)) = ([], 0) ∧
    (topLevelRun (Except.error ("adapter blew up".data) :
      Except Str ScanReport)).2 ≠ 0 ∧
    (topLevelRun (Except.error ("adapter blew up".data) :
      Except Str ScanReport)).1 ≠ [] := by
  have h := top_level_exit_codes
  exact ⟨h.1 _, by decide, h.2.2.2.2 _ (by decide)⟩

theorem bne_true_iff_ne (a b : Str) : ((a != b) = true) ↔ a ≠ b := by
  simp [bne_iff_ne]

/-- C10: every ticket built by the generate branch carries constraints with
    the kill switch inactive, exactly the two fixed allowed target
    services, a rate limit of one hundred operations per hour, payment
    required exactly for non-Bronze levels, and the max operation value
    ladder: ten thousand for Platinum, five thousand for Gold, one
    thousand for Silver, one hundred for everything else. -/
theorem ticket_generate_constraint_values (agent level : Str) :
    (generateBranchRequest agent level).constraints.kill_switch_active =
      false ∧
    (generateBranchRequest agent level).constraints.allowed_mcp_servers =
      [("tools.agntor.com".data), ("api.example.com".data)] ∧
    (generateBranchRequest agent level).constraints.max_ops_per_hour = 100 ∧
    ((generateBranchRequest agent level).constraints.requires_x402_payment =
      true ↔ level ≠ "Bronze".data) ∧
    (level = "Platinum".data →
      (generateBranchRequest agent level).constraints.max_op_value = 10000) ∧
    (level = "Gold".data →
      (generateBranchRequest agent level).constraints.max_op_value = 5000) ∧
    (level = "Silver".data →
      (generateBranchRequest agent level).constraints.max_op_value = 1000) ∧
    (level ≠ "Platinum".data → level ≠ "Gold".data → level ≠ "Silver".data →
      (generateBranchRequest agent level).constraints.max_op_value = 100) := by
  refine ⟨rfl, rfl, rfl, bne_true_iff_ne level ("Bronze".data), ?_, ?_, ?_, ?_⟩
  · intro h
    subst h
    exact (by decide :
      (generateConstraints ("Platinum".data)).max_op_value = 10000)
  · intro h
    subst h
    exact (by decide :
      (generateConstraints ("Gold".data)).max_op_value = 5000)
  · intro h
    subst h
    exact (by decide :
      (generateConstraints ("Silver".data)).max_op_value = 1000)
  · intro h1 h2 h3
    simp [generateBranchRequest, generateConstraints, h1, h2, h3]

theorem ticket_generate_constraint_values_witness :
    (generateBranchRequest ("agent-001".data) ("Gold".data)).constraints.max_op_value
      = 5000 ∧
    (generateBranchRequest ("agent-001".data) ("Copper".data)).constraints.max_op_value
      = 100 ∧
    (generateBranchRequest ("agent-001".data) ("Bronze".data)).constraints.requires_x402_payment
      = false := by
  refine ⟨(ticket_generate_constraint_values ("agent-001".data)
      ("Gold".data)).2.2.2.2.2.1 rfl,
    (ticket_generate_constraint_values ("agent-001".data)
      ("Copper".data)).2.2.2.2.2.2.2 (by decide) (by decide) (by decide), ?_⟩
  have h := (ticket_generate_constraint_values ("agent-001".data)
    ("Bronze".data)).2.2.2.1
  cases hx : (generateBranchRequest ("agent-001".data)
      ("Bronze".data)).constraints.requires_x402_payment with
  | false => exact hx
  | true => exact absurd rfl (h.mp hx)

theorem secret_findings_no_block (fs : List RedactFinding) :
    (fs.map secretFindingOf).any
      (fun f => f.classification == Classification.block) = false := by
  induction fs with
  | nil => rfl
  | cons f rest ih => simp [secretFindingOf, ih]

theorem ssrf_findings_block_iff (v : Str → Option Str) (urls : List Str) :
    ((ssrfScanLoop v urls).filterMap ssrfFindingOf).any
      (fun f => f.classification == Classification.block) =
    urls.any (fun u => (v u).isSome) := by
  induction urls with
  | nil => rfl
  | cons u rest ih =>
    cases h : v u with
    | none => simp [ssrfScanLoop, ssrfCheckOne, ssrfFindingOf, h, ih]
    | some e => simp [ssrfScanLoop, ssrfCheckOne, ssrfFindingOf, h, ih]

theorem ssrf_findings_nil (v : Str → Option Str) :
    ∀ urls : List Str, (∀ u ∈ urls, v u = none) →
    (ssrfScanLoop v urls).filterMap ssrfFindingOf = [] := by
  intro urls
  induction urls with
  | nil => intro _; rfl
  | cons u rest ih =>
    intro h
    have hu : v u = none := h u (List.mem_cons_self u rest)
    simp [ssrfScanLoop, ssrfCheckOne, hu, ssrfFindingOf,
      ih (fun w hw => h w (List.mem_cons_of_mem u hw))]

theorem overallOf_block_iff_any (r : ScanReport) :
    overallOf r = Classification.block ↔
    (reportFindings r).any
      (fun f => f.classification == Classification.block) = true := by
  unfold overallOf
  by_cases h : (reportFindings r).any
      (fun f => f.classification == Classification.block) = true
  · simp [h]
  · simp [h]

theorem scan_any_block_eq (av : Bool) (sub : Str → Option Str)
    (gA : Str → GuardResult) (rA : Str → RedactResult)
    (v : Str → Option Str) (input : Str) :
    (reportFindings (scanCommand av sub gA rA v input)).any
      (fun f => f.classification == Classification.block) =
    (((gA input).classification == Classification.block) ||
      (extractUrls input).any (fun u => (v u).isSome)) := by
  unfold reportFindings
  have hguard : (scanCommand av sub gA rA v input).guardResult = gA input := rfl
  have hred : (scanCommand av sub gA rA v input).redactResult = rA input := rfl
  have hssrf : (scanCommand av sub gA rA v input).ssrfResults =
      ssrfScanLoop v (extractUrls input) := rfl
  rw [hguard, hred, hssrf, List.any_append, List.any_append,
    secret_findings_no_block, ssrf_findings_block_iff]
  by_cases h : (gA input).classification = Classification.block
  · simp [h]
  · simp [h]

/-- C1: the derived overall Classification of the ThreatReport of a scan is
    block exactly when some constituent Finding is block-classified, which
    happens exactly when the guard blocks or some extracted URL fails
    validation; redaction findings alone never flip the overall to block,
    and an input triggering no detector yields overall pass with an empty
    Finding set. -/
theorem scan_overall_block_iff (av : Bool) (sub : Str → Option Str)
    (gA : Str → GuardResult) (rA : Str → RedactResult)
    (v : Str → Option Str) (input : Str) :
    (overallOf (scanCommand av sub gA rA v input) = Classification.block ↔
      ∃ f ∈ reportFindings (scanCommand av sub gA rA v input),
        f.classification = Classification.block) ∧
    (overallOf (scanCommand av sub gA rA v input) = Classification.block ↔
      ((gA input).classification = Classification.block ∨
        ∃ u ∈ extractUrls input, v u ≠ none)) ∧
    ((gA input).classification = Classification.pass →
      (∀ u ∈ extractUrls input, v u = none) →
      overallOf (scanCommand av sub gA rA v input) = Classification.pass) ∧
    ((gA input).classification = Classification.pass →
      (rA input).findings = [] →
      (∀ u ∈ extractUrls input, v u = none) →
      overallOf (scanCommand av sub gA rA v input) = Classification.pass ∧
      reportFindings (scanCommand av sub gA rA v input) = []) := by
  have hiff2 : overallOf (scanCommand av sub gA rA v input) =
      Classification.block ↔
      ((gA input).classification = Classification.block ∨
        ∃ u ∈ extractUrls input, v u ≠ none) := by
    rw [overallOf_block_iff_any, scan_any_block_eq]
    simp [List.any_eq_true, Option.isSome_iff_ne_none]
  have h3 : (gA input).classification = Classification.pass →
      (∀ u ∈ extractUrls input, v u = none) →
      overallOf (scanCommand av sub gA rA v input) = Classification.pass := by
    intro hp hall
    cases hc : overallOf (scanCommand av sub gA rA v input) with
    | pass => rfl
    | block =>
      rcases hiff2.mp hc with hg | ⟨u, hu, hv⟩
      · rw [hp] at hg
        exact Classification.noConfusion hg
      · exact absurd (hall u hu) hv
  refine ⟨?_, hiff2, h3, ?_⟩
  · rw [overallOf_block_iff_any]
    simp [List.any_eq_true]
  · intro hp hmt hall
    refine ⟨h3 hp hall, ?_⟩
    unfold reportFindings
    have hguard : (scanCommand av sub gA rA v input).guardResult = gA input :=
      rfl
    have hred : (scanCommand av sub gA rA v input).redactResult = rA input :=
      rfl
    have hssrf : (scanCommand av sub gA rA v input).ssrfResults =
        ssrfScanLoop v (extractUrls input) := rfl
    rw [hguard, hred, hssrf, hp, hmt, ssrf_findings_nil v (extractUrls input) hall]
    simp

theorem scan_overall_block_iff_witness :
    overallOf (scanCommand false (fun _ => none)
      (fun _ => GuardResult.mk Classification.pass [])
      (fun _ => RedactResult.mk ("my key is [REDACTED]".data)
        [RedactFinding.mk ("aws_access_key".data) (10, 30)])
      (fun _ => none) ("my key is AKIA1234567890ABCDEF".data)) =
      Classification.pass :=
  (scan_overall_block_iff false (fun _ => none)
    (fun _ => GuardResult.mk Classification.pass [])
    (fun _ => RedactResult.mk ("my key is [REDACTED]".data)
      [RedactFinding.mk ("aws_access_key".data) (10, 30)])
    (fun _ => none) ("my key is AKIA1234567890ABCDEF".data)).2.2.1
    rfl (fun _ _ => rfl)

theorem replaceBoldGo_id : ∀ l : Str, ¬ star ∈ l → ∀ fuel : Nat,
    l.length ≤ fuel → replaceBoldGo fuel l = l := by
  intro l
  induction l with
  | nil =>
    intro _ fuel _
    cases fuel <;> rfl
  | cons c rest ih =>
    intro hm fuel hf
    cases fuel with
    | zero => simp at hf
    | succ f =>
      have hc : ¬ c = star := fun e => hm (e ▸ List.mem_cons_self c rest)
      have hr : ¬ star ∈ rest := fun e => hm (List.mem_cons_of_mem c e)
      have hlen : rest.length ≤ f := by
        simp only [List.length_cons] at hf
        omega
      simp only [replaceBoldGo, if_neg hc]
      rw [ih hr f hlen]

theorem replaceCodeGo_id : ∀ l : Str, ¬ backquote ∈ l → ∀ fuel : Nat,
    l.length ≤ fuel → replaceCodeGo fuel l = l := by
  intro l
  induction l with
  | nil =>
    intro _ fuel _
    cases fuel <;> rfl
  | cons c rest ih =>
    intro hm fuel hf
    cases fuel with
    | zero => simp at hf
    | succ f =>
      have hc : ¬ c = backquote := fun e => hm (e ▸ List.mem_cons_self c rest)
      have hr : ¬ backquote ∈ rest := fun e => hm (List.mem_cons_of_mem c e)
      have hlen : rest.length ≤ f := by
        simp only [List.length_cons] at hf
        omega
      simp only [replaceCodeGo, if_neg hc]
      rw [ih hr f hlen]

theorem replaceItalicGo_id : ∀ l : Str, ¬ star ∈ l →
    ∀ (prev : Bool) (fuel : Nat),
    l.length ≤ fuel → replaceItalicGo prev fuel l = l := by
  intro l
  induction l with
  | nil =>
    intro _ prev fuel _
    cases fuel <;> rfl
  | cons c rest ih =>
    intro hm prev fuel hf
    cases fuel with
    | zero => simp at hf
    | succ f =>
      have hc : ¬ c = star := fun e => hm (e ▸ List.mem_cons_self c rest)
      have hr : ¬ star ∈ rest := fun e => hm (List.mem_cons_of_mem c e)
      have hlen : rest.length ≤ f := by
        simp only [List.length_cons] at hf
        omega
      simp only [replaceItalicGo, if_neg hc]
      rw [ih hr false f hlen]

theorem splitNl_ne_nil : ∀ l : Str, splitNl l ≠ [] := by
  intro l
  cases l with
  | nil => simp [splitNl]
  | cons c rest =>
    by_cases h : c = '\n'
    · simp [splitNl, h]
    · simp only [splitNl, if_neg h]
      cases hsp : splitNl rest with
      | nil => simp
      | cons l0 ls => simp

theorem splitNl_cons_not_nl (c : Char) (rest l0 : Str) (ls : List Str)
    (h : ¬ c = '\n') (hsp : splitNl rest = l0 :: ls) :
    splitNl (c :: rest) = (c :: l0) :: ls := by
  simp only [splitNl, if_neg h, hsp]

theorem joinNl_splitNl : ∀ l : Str, joinNl (splitNl l) = l := by
  intro l
  induction l with
  | nil => rfl
  | cons c rest ih =>
    by_cases h : c = '\n'
    · subst h
      cases hsp : splitNl rest with
      | nil => exact absurd hsp (splitNl_ne_nil rest)
      | cons l0 ls =>
        have hspl : splitNl (('\n' : Char) :: rest) = [] :: l0 :: ls := by
          simp [splitNl, hsp]
        rw [hspl]
        show ('\n' :: joinNl (l0 :: ls) : Str) = '\n' :: rest
        rw [← hsp, ih]
    · cases hsp : splitNl rest with
      | nil => exact absurd hsp (splitNl_ne_nil rest)
      | cons l0 ls =>
        rw [splitNl_cons_not_nl c rest l0 ls h hsp]
        cases ls with
        | nil =>
          show (c :: l0 : Str) = c :: rest
          have h2 : joinNl [l0] = rest := by
            rw [← hsp]
            exact ih
          show (c :: l0 : Str) = c :: rest
          rw [show l0 = joinNl [l0] from rfl, h2]
        | cons l1 ls1 =>
          show ((c :: l0) ++ '\n' :: joinNl (l1 :: ls1) : Str) = c :: rest
          have h2 : l0 ++ '\n' :: joinNl (l1 :: ls1) = rest := by
            have h3 : joinNl (l0 :: l1 :: ls1) = rest := by
              rw [← hsp]
              exact ih
            exact h3
          rw [List.cons_append, h2]

theorem mem_splitNl : ∀ (l line : Str), line ∈ splitNl l →
    ∀ c ∈ line, c ∈ l := by
  intro l
  induction l with
  | nil =>
    intro line hl c hc
    simp [splitNl] at hl
    subst hl
    simp at hc
  | cons a rest ih =>
    intro line hl c hc
    by_cases h : a = '\n'
    · subst h
      have hspl : splitNl (('\n' : Char) :: rest) = [] :: splitNl rest := by
        simp [splitNl]
      rw [hspl] at hl
      rcases List.mem_cons.mp hl with h1 | h1
      · subst h1
        simp at hc
      · exact List.mem_cons_of_mem _ (ih line h1 c hc)
    · cases hsp : splitNl rest with
      | nil => exact absurd hsp (splitNl_ne_nil rest)
      | cons l0 ls =>
        rw [splitNl_cons_not_nl a rest l0 ls h hsp] at hl
        rcases List.mem_cons.mp hl with h1 | h1
        · subst h1
          rcases List.mem_cons.mp hc with h2 | h2
          · rw [h2]
            exact List.mem_cons_self _ rest
          · have hl0 : l0 ∈ splitNl rest := by
              rw [hsp]
              exact List.mem_cons_self l0 ls
            exact List.mem_cons_of_mem _ (ih l0 hl0 c h2)
        · have hline : line ∈ splitNl rest := by
            rw [hsp]
            exact List.mem_cons_of_mem l0 h1
          exact List.mem_cons_of_mem _ (ih line hline c hc)

/-- C8: on text with no heading-marker prefix lines and no bold, code or
    italic delimiter characters, the markdown rendering transform leaves
    the text unchanged, hence applying it twice equals applying it once:
    it is idempotent on markup-free text. -/
theorem renderMarkdown_id_no_markup (text : Str)
    (hs : ¬ star ∈ text) (hb : ¬ backquote ∈ text)
    (hh : ∀ line ∈ splitNl text, isHeadingLine line = false) :
    renderMarkdown text = text ∧
    renderMarkdown (renderMarkdown text) = renderMarkdown text := by
  have hline : ∀ line ∈ splitNl text, renderLine line = line := by
    intro line hl
    have hsl : ¬ star ∈ line := fun hc => hs (mem_splitNl text line hl star hc)
    have hbl : ¬ backquote ∈ line :=
      fun hc => hb (mem_splitNl text line hl backquote hc)
    unfold renderLine
    rw [hh line hl]
    simp only [Bool.false_eq_true, if_false]
    rw [replaceBold, replaceBoldGo_id line hsl line.length (Nat.le_refl _),
      replaceCode, replaceCodeGo_id line hbl line.length (Nat.le_refl _),
      replaceItalic, replaceItalicGo_id line hsl false line.length (Nat.le_refl _)]
  have h1 : renderMarkdown text = text := by
    unfold renderMarkdown
    rw [map_eq_self renderLine (splitNl text) hline, joinNl_splitNl]
  exact ⟨h1, by rw [h1]; exact h1⟩

theorem renderMarkdown_id_no_markup_witness :
    renderMarkdown ("plain assessment line\nsecond line, still plain".data) =
      ("plain assessment line\nsecond line, still plain".data) :=
  (renderMarkdown_id_no_markup
    ("plain assessment line\nsecond line, still plain".data)
    (by decide) (by decide) (by decide)).1

theorem tryCsi_length : ∀ l r : Str, tryCsi l = some r → r.length < l.length := by
  intro l r h
  cases l with
  | nil => simp [tryCsi] at h
  | cons c rest =>
    by_cases hc : c = '['
    · subst hc
      simp only [tryCsi, if_pos rfl] at h
      rcases hs : spanP isParamChar rest with ⟨fst, snd⟩
      rw [hs] at h
      cases snd with
      | nil => simp at h
      | cons a rest' =>
        by_cases ha : a.isAlpha = true
        · simp only [ha, if_pos rfl] at h
          injection h with h
          have h1 : (a :: rest').length ≤ rest.length := by
            have h2 := spanP_snd_length_le isParamChar rest
            rw [hs] at h2
            exact h2
          rw [← h]
          simp only [List.length_cons] at h1 ⊢
          omega
        · simp [ha] at h
    · simp [tryCsi, hc] at h

theorem stripAnsiGo_congr : ∀ (f1 : Nat) (l : Str) (f2 : Nat),
    l.length ≤ f1 → l.length ≤ f2 → stripAnsiGo f1 l = stripAnsiGo f2 l := by
  intro f1
  induction f1 with
  | zero =>
    intro l f2 h1 _
    have hl : l = [] := List.eq_nil_of_length_eq_zero (Nat.le_zero.mp h1)
    subst hl
    cases f2 <;> rfl
  | succ f ih =>
    intro l f2 h1 h2
    cases l with
    | nil => cases f2 <;> rfl
    | cons c rest =>
      cases f2 with
      | zero => simp at h2
      | succ g =>
        simp only [List.length_cons] at h1 h2
        have hr1 : rest.length ≤ f := by omega
        have hr2 : rest.length ≤ g := by omega
        by_cases hc : c = esc
        · subst hc
          simp only [stripAnsiGo, if_pos rfl]
          cases ht : tryCsi rest with
          | none => rw [ih rest g hr1 hr2]
          | some rest' =>
            have hlt := tryCsi_length rest rest' ht
            exact ih rest' g (by omega) (by omega)
        · simp only [stripAnsiGo, if_neg hc]
          rw [ih rest g hr1 hr2]

theorem stripAnsi_csi (params : Str) (letter : Char) (tail : Str)
    (hp : ∀ c ∈ params, isParamChar c = true) (hl : letter.isAlpha = true)
    (hlp : isParamChar letter = false) :
    stripAnsi (esc :: '[' :: (params ++ letter :: tail)) = stripAnsi tail := by
  have htry : tryCsi ('[' :: (params ++ letter :: tail)) = some tail := by
    simp only [tryCsi, if_pos rfl]
    rw [spanP_app isParamChar params letter tail hp hlp]
    simp [hl]
  show stripAnsiGo ((params ++ letter :: tail).length + 1 + 1)
      (esc :: '[' :: (params ++ letter :: tail)) = stripAnsi tail
  simp only [stripAnsiGo, if_pos rfl]
  rw [htry]
  show stripAnsiGo ((params ++ letter :: tail).length + 1) tail = stripAnsi tail
  apply stripAnsiGo_congr
  · simp only [List.length_append, List.length_cons]
    omega
  · exact Nat.le_refl _

theorem stripAnsiGo_append : ∀ p : Str, (∀ c ∈ p, c ≠ esc) →
    ∀ (q : Str) (fuel : Nat), (p ++ q).length ≤ fuel →
    stripAnsiGo fuel (p ++ q) = p ++ stripAnsiGo (fuel - p.length) q := by
  intro p
  induction p with
  | nil =>
    intro _ q fuel _
    simp
  | cons c p' ih =>
    intro hne q fuel hf
    have hc : c ≠ esc := hne c (List.mem_cons_self c p')
    cases fuel with
    | zero =>
      simp only [List.cons_append, List.length_cons] at hf
      omega
    | succ f =>
      have harith : (f + 1) - (c :: p').length = f - p'.length := by
        simp only [List.length_cons]
        omega
      rw [harith]
      show stripAnsiGo (f + 1) (c :: (p' ++ q)) =
        (c :: p') ++ stripAnsiGo (f - p'.length) q
      simp only [stripAnsiGo, if_neg hc]
      have hf' : (p' ++ q).length ≤ f := by
        simp only [List.cons_append, List.length_cons] at hf
        omega
      rw [ih (fun d hd => hne d (List.mem_cons_of_mem c hd)) q f hf']
      simp [List.cons_append]

theorem stripAnsi_append (p q : Str) (h : ∀ c ∈ p, c ≠ esc) :
    stripAnsi (p ++ q) = p ++ stripAnsi q := by
  unfold stripAnsi
  rw [stripAnsiGo_append p h q (p ++ q).length (Nat.le_refl _)]
  congr 1
  apply stripAnsiGo_congr
  · simp only [List.length_append]
    omega
  · exact Nat.le_refl _

theorem findMark_append_shift (n0 : Char) (nt : Str) :
    ∀ p : Str, ¬ n0 ∈ p → ∀ q : Str,
    findMark (n0 :: nt) (p ++ q) =
      (findMark (n0 :: nt) q).map (fun i => i + p.length) := by
  intro p
  induction p with
  | nil =>
    intro _ q
    cases h : findMark (n0 :: nt) q <;> simp [h]
  | cons c p' ih =>
    intro hm q
    have hc : c ≠ n0 := fun e => hm (e ▸ List.mem_cons_self c p')
    have h1 : leadsWith (n0 :: nt) (c :: (p' ++ q)) = false :=
      leadsWith_cons_ne n0 nt c (p' ++ q) hc
    show findMark (n0 :: nt) (c :: (p' ++ q)) = _
    simp only [findMark, h1, Bool.false_eq_true, if_false]
    rw [ih (fun e => hm (List.mem_cons_of_mem c e)) q]
    cases findMark (n0 :: nt) q with
    | none => simp
    | some i =>
      simp only [Option.map_some', Option.some.injEq, List.length_cons]
      all_goals omega

theorem findMark_self (n0 : Char) (nt r : Str) :
    findMark (n0 :: nt) ((n0 :: nt) ++ r) = some 0 := by
  have h : leadsWith (n0 :: nt) (n0 :: (nt ++ r)) = true :=
    leadsWith_append (n0 :: nt) r
  show findMark (n0 :: nt) (n0 :: (nt ++ r)) = some 0
  simp [findMark, h]

theorem findMark_ge_body (body q : Str) (hbn : ¬ '\n' ∈ body) (t : Str)
    (k : Nat) (hk : findMark ('\n' :: t) (body ++ q) = some k) :
    body.length ≤ k := by
  rw [findMark_append_shift '\n' t body hbn q] at hk
  cases hf : findMark ('\n' :: t) q with
  | none =>
    rw [hf] at hk
    simp at hk
  | some j =>
    rw [hf] at hk
    simp only [Option.map_some', Option.some.injEq] at hk
    omega

theorem findMark_at_body (body R t : Str) (hbn : ¬ '\n' ∈ body) :
    findMark ('\n' :: t) (body ++ (('\n' :: t) ++ R)) = some body.length := by
  rw [findMark_append_shift '\n' t body hbn (('\n' :: t) ++ R), findMark_self]
  simp

theorem truncAtMarkers_body (body m R : Str)
    (hm : m = marker1 ∨ m = marker2) (hbn : ¬ '\n' ∈ body) :
    truncAtMarkers (body ++ (m ++ R)) = body := by
  have h1head : marker1 = '\n' :: ("Total usage est:".data) := by decide
  have h2head : marker2 = '\n' :: ("API time spent:".data) := by decide
  have hfull : body.length ≤ (body ++ (m ++ R)).length := by
    rw [List.length_append]
    omega
  rcases hm with h | h
  · subst h
    have hA : findMark marker1 (body ++ (marker1 ++ R)) = some body.length := by
      rw [h1head]
      exact findMark_at_body body R _ hbn
    have hB : body.length ≤ (findMark marker2
        (body ++ (marker1 ++ R))).getD (body ++ (marker1 ++ R)).length := by
      cases hf : findMark marker2 (body ++ (marker1 ++ R)) with
      | none =>
        simp only [Option.getD_none]
        exact hfull
      | some k =>
        simp only [Option.getD_some]
        apply findMark_ge_body body (marker1 ++ R) hbn ("API time spent:".data) k
        rw [← h2head]
        exact hf
    show (body ++ (marker1 ++ R)).take
      (min ((findMark marker1 (body ++ (marker1 ++ R))).getD
          (body ++ (marker1 ++ R)).length)
        ((findMark marker2 (body ++ (marker1 ++ R))).getD
          (body ++ (marker1 ++ R)).length)) = body
    rw [hA]
    simp only [Option.getD_some]
    rw [Nat.min_eq_left hB]
    exact List.take_left body (marker1 ++ R)
  · subst h
    have hA : findMark marker2 (body ++ (marker2 ++ R)) = some body.length := by
      rw [h2head]
      exact findMark_at_body body R _ hbn
    have hB : body.length ≤ (findMark marker1
        (body ++ (marker2 ++ R))).getD (body ++ (marker2 ++ R)).length := by
      cases hf : findMark marker1 (body ++ (marker2 ++ R)) with
      | none =>
        simp only [Option.getD_none]
        exact hfull
      | some k =>
        simp only [Option.getD_some]
        apply findMark_ge_body body (marker2 ++ R) hbn ("Total usage est:".data) k
        rw [← h1head]
        exact hf
    show (body ++ (marker2 ++ R)).take
      (min ((findMark marker1 (body ++ (marker2 ++ R))).getD
          (body ++ (marker2 ++ R)).length)
        ((findMark marker2 (body ++ (marker2 ++ R))).getD
          (body ++ (marker2 ++ R)).length)) = body
    rw [hA]
    simp only [Option.getD_some]
    rw [Nat.min_eq_right hB]
    exact List.take_left body (marker2 ++ R)

theorem mem_trimWs (c : Char) (l : Str) (h : c ∈ trimWs l) : c ∈ l := by
  unfold trimWs at h
  rw [List.mem_reverse] at h
  have h2 : c ∈ (l.dropWhile isJsWs).reverse :=
    (List.dropWhile_sublist isJsWs).subset h
  rw [List.mem_reverse] at h2
  exact (List.dropWhile_sublist isJsWs).subset h2

/-- C7: sanitization of subprocess output strips the ANSI escape sequence,
    removes carriage returns, truncates at the earliest occurrence of a
    usage-statistics marker and trims whitespace: for output made of an
    ANSI cursor-movement sequence, then body text, then a usage-marker line,
    the sanitized result is exactly the trimmed body text, with no escape
    byte left. -/
theorem cleanOutput_scenario (params : Str) (letter : Char)
    (body m rest : Str)
    (hp : ∀ c ∈ params, isParamChar c = true)
    (hl : letter.isAlpha = true) (hlp : isParamChar letter = false)
    (hm : m = marker1 ∨ m = marker2)
    (hbe : ¬ esc ∈ body) (hbr : ¬ '\r' ∈ body) (hbn : ¬ '\n' ∈ body) :
    cleanOutput (esc :: '[' :: (params ++ letter :: (body ++ m ++ rest))) =
      trimWs body ∧
    ¬ esc ∈ cleanOutput (esc :: '[' :: (params ++ letter ::
      (body ++ m ++ rest))) := by
  have hmesc : ¬ esc ∈ m := by
    rcases hm with h | h <;> subst h <;> decide
  have hmcr : ¬ '\r' ∈ m := by
    rcases hm with h | h <;> subst h <;> decide
  have hesc : ∀ c ∈ body ++ m, c ≠ esc := by
    intro c hc e
    subst e
    rcases List.mem_append.mp hc with h | h
    · exact hbe h
    · exact hmesc h
  have hstrip : stripAnsi (esc :: '[' :: (params ++ letter ::
      (body ++ m ++ rest))) = (body ++ m) ++ stripAnsi rest := by
    rw [stripAnsi_csi params letter (body ++ m ++ rest) hp hl hlp]
    exact stripAnsi_append (body ++ m) rest hesc
  have hcr : removeCR ((body ++ m) ++ stripAnsi rest) =
      (body ++ m) ++ removeCR (stripAnsi rest) := by
    unfold removeCR
    rw [List.filter_append]
    congr 1
    apply List.filter_eq_self.mpr
    intro a ha
    apply decide_eq_true
    intro e
    subst e
    rcases List.mem_append.mp ha with h | h
    · exact hbr h
    · exact hmcr h
  have hmain : cleanOutput (esc :: '[' :: (params ++ letter ::
      (body ++ m ++ rest))) = trimWs body := by
    unfold cleanOutput
    rw [hstrip, hcr, List.append_assoc,
      truncAtMarkers_body body m (removeCR (stripAnsi rest)) hm hbn]
  refine ⟨hmain, ?_⟩
  rw [hmain]
  intro hc
  exact hbe (mem_trimWs esc body hc)

theorem cleanOutput_scenario_witness :
    cleanOutput (esc :: '[' :: (['2'] ++ 'J' ::
      (("body text".data) ++ marker1 ++ (" 42 tokens".data)))) =
      ("body text".data) ∧
    ¬ esc ∈ cleanOutput (esc :: '[' :: (['2'] ++ 'J' ::
      (("body text".data) ++ marker1 ++ (" 42 tokens".data)))) := by
  have h := cleanOutput_scenario ['2'] 'J' ("body text".data) marker1
    (" 42 tokens".data) (by decide) (by decide) (by decide) (Or.inl rfl)
    (by decide) (by decide) (by decide)
  exact ⟨h.1.trans (by decide), h.2⟩

end Agntor
